import Mathlib

/-!
Verification of the OEM-partition sealing core of cos-customizer.

The Go sources embedded here (shallowly, over `List Char` for Go strings,
`Nat` with explicit `% 2^64` for `uint64`, and `Int` for Go `int`) are:

* `tools/seal_oem_partition.go`: `SealOEMPartition`, `veritysetup` (its
  output-parsing stage), `appendDMEntryToGRUB`;
* `cmd/finish_image_build.go`: `validateOEM`.

Go strings are byte sequences; every string manipulated by this code is
ASCII, so a `List Char` with one `Char` per byte is a faithful model
(byte indices and rune indices coincide).

External effects (docker, mount, file I/O) are modelled as environments of
step outcomes; the pure control flow and string manipulation is translated
from the source line by line.
-/

set_option maxRecDepth 16384

/-! ### Go string primitives (`strings` package), on `List Char` -/

/-- `goIndex pat s` models Go `strings.Index(s, pat)`: the index of the first
occurrence of `pat` in `s`, or `none` where Go returns `-1`. -/
def goIndex (pat : List Char) : List Char → Option Nat
  | [] => if pat.isEmpty then some 0 else none
  | a :: s => if pat.isPrefixOf (a :: s) then some 0 else (goIndex pat s).map (· + 1)

/-- `goContains s pat` models Go `strings.Contains(s, pat)`. -/
def goContains (s pat : List Char) : Bool :=
  (goIndex pat s).isSome

/-- Go `unicode.IsSpace` restricted to ASCII (all inputs here are ASCII). -/
def goIsSpace (c : Char) : Bool :=
  c = ' ' || c = '\t' || c = '\n' || c = '\x0b' || c = '\x0c' || c = '\r'

/-- Models Go `strings.TrimSpace`. -/
def trimSpace (l : List Char) : List Char :=
  ((l.dropWhile goIsSpace).reverse.dropWhile goIsSpace).reverse

/-- Value of a decimal digit string, as read by Go `strconv.ParseUint`. -/
def digitsToNat (l : List Char) : Nat :=
  l.foldl (fun a c => a * 10 + (c.toNat - 48)) 0

/-- The ASCII digit character of `d` (`d < 10`). -/
def digitChar (d : Nat) : Char :=
  Char.ofNat (48 + d)

/-- Reference decimal formatter (most significant digit first), used to state
and prove properties of the fuelled executable version below. -/
def natToDigitsWF (n : Nat) : List Char :=
  if _h : n < 10 then [digitChar n]
  else natToDigitsWF (n / 10) ++ [digitChar (n % 10)]
termination_by n
decreasing_by exact Nat.div_lt_self (by omega) (by omega)

/-- Fuelled decimal formatter; structural recursion on the fuel list keeps it
kernel-computable. -/
def natToDigitsGo : List Unit → Nat → List Char → List Char
  | [], _, acc => acc
  | _ :: fs, n, acc =>
    let acc' := digitChar (n % 10) :: acc
    if n / 10 = 0 then acc' else natToDigitsGo fs (n / 10) acc'

/-- Models Go `strconv.FormatUint(n, 10)`. 64 units of fuel cover every
`uint64` (`2^64 < 10^64`). -/
def natToDigits (n : Nat) : List Char :=
  natToDigitsGo (List.replicate 64 ()) n []

theorem digitChar_toNat {d : Nat} (h : d < 10) : (digitChar d).toNat - 48 = d := by
  interval_cases d <;> decide

theorem digitChar_isDigit {d : Nat} (h : d < 10) : (digitChar d).isDigit = true := by
  interval_cases d <;> decide

theorem natToDigitsWF_ne_nil (n : Nat) : natToDigitsWF n ≠ [] := by
  rw [natToDigitsWF]
  split
  · simp
  · simp

theorem natToDigitsWF_all_digits (n : Nat) :
    ∀ c ∈ natToDigitsWF n, c.isDigit = true := by
  induction n using Nat.strong_induction_on with
  | _ n ih =>
    rw [natToDigitsWF]
    split
    · intro c hc
      rw [List.mem_singleton] at hc
      subst hc
      exact digitChar_isDigit (by omega)
    · intro c hc
      rw [List.mem_append] at hc
      rcases hc with hc | hc
      · exact ih (n / 10) (Nat.div_lt_self (by omega) (by omega)) c hc
      · rw [List.mem_singleton] at hc
        subst hc
        exact digitChar_isDigit (Nat.mod_lt _ (by omega))

theorem digitsToNat_natToDigitsWF (n : Nat) : digitsToNat (natToDigitsWF n) = n := by
  induction n using Nat.strong_induction_on with
  | _ n ih =>
    rw [natToDigitsWF]
    split
    · next h =>
      simp only [digitsToNat, List.foldl_cons, List.foldl_nil]
      have := digitChar_toNat h
      omega
    · next h =>
      simp only [digitsToNat, List.foldl_append, List.foldl_cons, List.foldl_nil]
      have h1 : digitsToNat (natToDigitsWF (n / 10)) = n / 10 :=
        ih (n / 10) (Nat.div_lt_self (by omega) (by omega))
      simp only [digitsToNat] at h1
      rw [h1]
      have h2 := digitChar_toNat (show n % 10 < 10 from Nat.mod_lt n (by omega))
      have h3 := Nat.div_add_mod n 10
      omega

theorem natToDigitsGo_eq_WF :
    ∀ (fs : List Unit) (n : Nat) (acc : List Char), n < 10 ^ fs.length → fs ≠ [] →
      natToDigitsGo fs n acc = natToDigitsWF n ++ acc := by
  intro fs
  induction fs with
  | nil => intro n acc _ hne; exact absurd rfl hne
  | cons f fs ih =>
    intro n acc hlt _
    simp only [natToDigitsGo]
    by_cases h : n / 10 = 0
    · have hn : n < 10 := by omega
      rw [if_pos h, natToDigitsWF, dif_pos hn]
      have : n % 10 = n := Nat.mod_eq_of_lt hn
      rw [this]
      simp
    · have hn : ¬ n < 10 := by omega
      rw [if_neg h]
      have hfs : fs ≠ [] := by
        intro hcon
        subst hcon
        simp only [List.length_cons, List.length_nil] at hlt
        omega
      have hlt' : n / 10 < 10 ^ fs.length := by
        rw [Nat.div_lt_iff_lt_mul (by omega)]
        calc n < 10 ^ (f :: fs).length := hlt
          _ = 10 ^ fs.length * 10 := by rw [List.length_cons, pow_succ]
      rw [ih (n / 10) (digitChar (n % 10) :: acc) hlt' hfs]
      conv_rhs => rw [natToDigitsWF, dif_neg hn]
      simp

theorem natToDigits_eq_WF {n : Nat} (h : n < 10 ^ 64) : natToDigits n = natToDigitsWF n := by
  have := natToDigitsGo_eq_WF (List.replicate 64 ()) n [] (by simpa using h) (by simp)
  simpa [natToDigits] using this

/-! ### Unit Converter (modelled from the spec; `tools/partutil` is not in the
source slice, only its callers are) -/

/-- Modelled from the spec: `partutil.ConvertSizeToBytes` (not in `src/`).
Per spec 4.1/6: a decimal number followed by an optional single-letter unit
`B`/`K`/`M`/`G` (binary units, 1K = 1024); no unit means 512-byte sectors;
fails on non-numeric input, unknown suffix, or negative values. Go returns a
`uint64`; the model returns the unbounded value, which agrees on every
accepted `uint64` input. -/
def convertSizeToBytes (s : List Char) : Option Nat :=
  let ds := s.takeWhile Char.isDigit
  let rest := s.dropWhile Char.isDigit
  if ds.isEmpty then none
  else
    match rest with
    | [] => some (digitsToNat ds * 512)
    | [u] =>
      if u = 'B' then some (digitsToNat ds)
      else if u = 'K' then some (digitsToNat ds * 1024)
      else if u = 'M' then some (digitsToNat ds * 1048576)
      else if u = 'G' then some (digitsToNat ds * 1073741824)
      else none
    | _ => none

/-- Modelled from the spec: `partutil.ConvertSizeToGBRoundUp` (not in `src/`).
Per spec 4.1: parse the size string, then integer-divide by 1 GiB rounding
up (never down). -/
def convertSizeToGBRoundUp (s : List Char) : Option Nat :=
  (convertSizeToBytes s).map (fun b => (b + (1073741824 - 1)) / 1073741824)

theorem takeWhile_append_last {p : Char → Bool} :
    ∀ (xs : List Char) (b : Char), (∀ c ∈ xs, p c = true) → p b = false →
      (xs ++ [b]).takeWhile p = xs ∧ (xs ++ [b]).dropWhile p = [b] := by
  intro xs
  induction xs with
  | nil =>
    intro b _ hb
    simp [List.takeWhile, List.dropWhile, hb]
  | cons x xs ih =>
    intro b hall hb
    have hx : p x = true := hall x (List.mem_cons_self x xs)
    have ⟨h1, h2⟩ := ih b (fun c hc => hall c (List.mem_cons_of_mem x hc)) hb
    simp [List.takeWhile, List.dropWhile, hx, h1, h2]

theorem convertSizeToBytes_format {n : Nat} (h : n < 10 ^ 64) :
    convertSizeToBytes (natToDigits n ++ ['B']) = some n := by
  rw [natToDigits_eq_WF h]
  have hall := natToDigitsWF_all_digits n
  have hB : Char.isDigit 'B' = false := by decide
  have ⟨h1, h2⟩ := takeWhile_append_last (natToDigitsWF n) 'B' hall hB
  simp only [convertSizeToBytes, h1, h2]
  rw [if_neg (by simpa [List.isEmpty_iff] using natToDigitsWF_ne_nil n)]
  simp [digitsToNat_natToDigitsWF n]

theorem convertSizeToGBRoundUp_format {n : Nat} (h : n < 10 ^ 64) :
    convertSizeToGBRoundUp (natToDigits n ++ ['B']) =
      some ((n + (1073741824 - 1)) / 1073741824) := by
  simp [convertSizeToGBRoundUp, convertSizeToBytes_format h]

/-! ### Boot Config Patcher: `appendDMEntryToGRUB` (seal_oem_partition.go) -/

/-- `2^64`, the modulus of Go `uint64` arithmetic. -/
def u64 : Nat := 18446744073709551616

/-- The search pattern `"dm="` of `appendDMEntryToGRUB`. -/
def dmPat : List Char := ('d') :: ('m') :: ('=') :: []

/-- The new dm-verity table row built by `appendDMEntryToGRUB`
(`fmt.Sprintf` at seal_oem_partition.go:180). `oemFSSizeSector` is
`oemFSSize4K << 3` in `uint64` arithmetic. -/
def entryString (name partUUID hash salt : List Char) (oemFSSize4K : Nat) : List Char :=
  let oemFSSizeSector := (oemFSSize4K * 8) % u64
  name ++ (" none ro 1, 0 ").toList ++ natToDigits oemFSSizeSector
    ++ (" verity payload=PARTUUID=").toList ++ partUUID
    ++ (" hashtree=PARTUUID=").toList ++ partUUID
    ++ (" hashstart=").toList ++ natToDigits oemFSSizeSector
    ++ (" alg=sha256 root_hexdigest=").toList ++ hash
    ++ (" salt=").toList ++ salt ++ [('"')]

/-- One iteration of the line loop of `appendDMEntryToGRUB`
(seal_oem_partition.go:190-198). A line without `dm=` is kept as is;
otherwise the line's final character is dropped (`line[:len(line)-1]`),
the character at `startPos+4` is overwritten with `'2'`
(`lineBuf[startPos+4] = '2'`; `none` models the index-out-of-range panic
when the line is too short), and the new table row is appended after a
comma (`strings.Join(append(strings.Split(...), entryString), ",")`). -/
def patchLine (entry : List Char) (line : List Char) : Option (List Char) :=
  if goContains line dmPat then
    match goIndex dmPat line with
    | none => none
    | some startPos =>
      let lineBuf := line.dropLast
      if startPos + 4 < lineBuf.length then
        some (List.intercalate [(',')] ((lineBuf.set (startPos + 4) ('2')).splitOn ',' ++ [entry]))
      else none
  else some line

/-- The line loop of `appendDMEntryToGRUB`: every line is rewritten in place;
a panic on any line aborts the whole function (`none`). -/
def patchLines (entry : List Char) : List (List Char) → Option (List (List Char))
  | [] => some []
  | l :: ls =>
    match patchLine entry l, patchLines entry ls with
    | some l', some ls' => some (l' :: ls')
    | _, _ => none

/-- `appendDMEntryToGRUB` on the contents of grub.cfg (file I/O aside):
split on newlines, patch each line, join with newlines
(seal_oem_partition.go:188-201). -/
def appendDMEntryToGRUB (name partUUID hash salt : List Char) (oemFSSize4K : Nat)
    (content : List Char) : Option (List Char) :=
  (patchLines (entryString name partUUID hash salt oemFSSize4K) (content.splitOn '\n')).map
    (List.intercalate [('\n')])

/-- The pattern locating a dm table: `dm="`. -/
def dmQuote : List Char := ('d') :: ('m') :: ('=') :: ('"') :: []

/-- The table-entry count of a boot line, located structurally: the token
immediately following the first `dm="`. Used to state the spec's claims about
counts; not part of the Go code. -/
def dmEntryCount (line : List Char) : Option (List Char) :=
  (goIndex dmQuote line).map (fun i => (line.drop (i + 4)).takeWhile (fun c => !(c = ' ')))

theorem intercalate_cons_of_ne_nil (s a : List Char) (ps : List (List Char)) (h : ps ≠ []) :
    List.intercalate s (a :: ps) = a ++ s ++ List.intercalate s ps := by
  cases ps with
  | nil => exact absurd rfl h
  | cons q qs => simp [List.intercalate, List.intersperse]

theorem intercalate_append_singleton (s e : List Char) :
    ∀ (ps : List (List Char)), ps ≠ [] →
      List.intercalate s (ps ++ [e]) = List.intercalate s ps ++ s ++ e := by
  intro ps
  induction ps with
  | nil => intro h; exact absurd rfl h
  | cons p ps ih =>
    intro _
    cases ps with
    | nil => simp [List.intercalate, List.intersperse]
    | cons q qs =>
      have h2 := ih (by simp)
      rw [List.cons_append, intercalate_cons_of_ne_nil s p (q :: qs ++ [e]) (by simp), h2,
        intercalate_cons_of_ne_nil s p (q :: qs) (by simp)]
      simp [List.append_assoc]

theorem char_intercalate_splitOn (c : Char) (xs : List Char) :
    List.intercalate [c] (xs.splitOn c) = xs := by
  rw [List.splitOn]
  induction xs with
  | nil => simp [List.intercalate, List.intersperse]
  | cons hd tl ih =>
    rw [List.splitOnP_cons]
    by_cases h : (hd == c) = true
    · rw [if_pos h]
      rw [intercalate_cons_of_ne_nil _ _ _ (List.splitOnP_ne_nil _ tl), ih]
      have hc : hd = c := by simpa using h
      simp [hc]
    · rw [if_neg h]
      obtain ⟨p0, rest, hsp⟩ : ∃ p0 rest, List.splitOnP (· == c) tl = p0 :: rest := by
        cases hsp : List.splitOnP (· == c) tl with
        | nil => exact absurd hsp (List.splitOnP_ne_nil _ tl)
        | cons a b => exact ⟨a, b, rfl⟩
      rw [hsp] at ih
      rw [hsp]
      cases rest with
      | nil =>
        simp only [List.modifyHead, List.intercalate, List.intersperse, List.flatten,
          List.append_nil] at ih ⊢
        rw [ih]
      | cons r rs =>
        simp only [List.modifyHead]
        rw [intercalate_cons_of_ne_nil _ _ _ (by simp)] at ih
        rw [intercalate_cons_of_ne_nil _ _ _ (by simp), ← ih]
        simp [List.append_assoc]

theorem intercalate_splitOn_append (c : Char) (xs e : List Char) :
    List.intercalate [c] (xs.splitOn c ++ [e]) = xs ++ c :: e := by
  rw [intercalate_append_singleton [c] e (xs.splitOn c) (List.splitOnP_ne_nil _ xs)]
  rw [char_intercalate_splitOn c]
  simp

theorem goIndex_isSome_of_eq {pat s : List Char} {i : Nat} (h : goIndex pat s = some i) :
    goContains s pat = true := by
  simp [goContains, h]

/-! ### Verity Sealer: output parsing of `veritysetup` (seal_oem_partition.go:157-170) -/

/-- One iteration of the parsing loop of `veritysetup`: a line prefixed
`Root hash:` sets the hash to the trimmed text after the first colon
(`strings.TrimSpace(strings.Split(line, ":")[1])`), a line prefixed `Salt:`
likewise sets the salt, any other line leaves the accumulator alone. -/
def verityStep (acc : List Char × List Char) (line : List Char) : List Char × List Char :=
  if (("Root hash:").toList).isPrefixOf line then
    (trimSpace ((line.splitOn ':').getD 1 []), acc.2)
  else if (("Salt:").toList).isPrefixOf line then
    (acc.1, trimSpace ((line.splitOn ':').getD 1 []))
  else acc

/-- The parsing stage of `veritysetup`: fold the loop over the output's lines
starting from `hash = ""`, `salt = ""`; fail (`none`, modelling the
`fmt.Errorf` return of empty hash and salt) if either field is still empty. -/
def parseVerityOutput (out : List Char) : Option (List Char × List Char) :=
  let p := (out.splitOn '\n').foldl verityStep ([], [])
  if p.1 = [] ∨ p.2 = [] then none else some p

/-! ### `SealOEMPartition` (seal_oem_partition.go:18-54): control flow over an
environment of external-step outcomes -/

/-- The externally visible steps of `SealOEMPartition`, in the order the
source performs them. -/
inductive SealStep
  | loadImage
  | unmountOEM
  | runVeritysetup
  | mountEFI
  | getPartUUID
  | appendDM
  | removeImage
deriving DecidableEq

/-- The distinct error returns of `SealOEMPartition`, each wrapping the
underlying failure like the corresponding `fmt.Errorf` (the partUUID error
drops the underlying error, as the source does). -/
inductive SealErr
  | loadImageErr (e : String)
  | unmountErr (e : String)
  | veritysetupRunErr (e : String)
  | verityParseErr
  | mountEFIErr (e : String)
  | partUUIDErr
  | appendErr (e : String)
  | removeErr (e : String)
deriving DecidableEq

/-- Outcomes of the external effects `SealOEMPartition` depends on: docker
load, umount, the veritysetup container run (its raw stdout on success),
mounting the EFI partition, reading the partition UUID, patching grub.cfg,
and removing the docker image. -/
structure SealEnv where
  loadImageResult : Except String String
  unmountResult : Except String Unit
  veritysetupRun : Except String String
  mountEFIResult : Except String String
  partUUIDResult : Except String String
  appendResult : Except String Unit
  removeResult : Except String Unit

/-- `SealOEMPartition`, translated statement by statement: the returned trace
lists the steps reached in source order, and the second component is `none`
exactly when the Go function returns `nil`. -/
def sealOEMPartition (env : SealEnv) : List SealStep × Option SealErr :=
  match env.loadImageResult with
  | .error e => ([.loadImage], some (.loadImageErr e))
  | .ok _imageID =>
    match env.unmountResult with
    | .error e => ([.loadImage, .unmountOEM], some (.unmountErr e))
    | .ok _ =>
      match env.veritysetupRun with
      | .error e => ([.loadImage, .unmountOEM, .runVeritysetup], some (.veritysetupRunErr e))
      | .ok out =>
        match parseVerityOutput out.toList with
        | none => ([.loadImage, .unmountOEM, .runVeritysetup], some .verityParseErr)
        | some _hashSalt =>
          match env.mountEFIResult with
          | .error e =>
            ([.loadImage, .unmountOEM, .runVeritysetup, .mountEFI], some (.mountEFIErr e))
          | .ok _grubPath =>
            match env.partUUIDResult with
            | .error _ =>
              ([.loadImage, .unmountOEM, .runVeritysetup, .mountEFI, .getPartUUID],
                some .partUUIDErr)
            | .ok _partUUID =>
              match env.appendResult with
              | .error e =>
                ([.loadImage, .unmountOEM, .runVeritysetup, .mountEFI, .getPartUUID, .appendDM],
                  some (.appendErr e))
              | .ok _ =>
                match env.removeResult with
                | .error e =>
                  ([.loadImage, .unmountOEM, .runVeritysetup, .mountEFI, .getPartUUID,
                    .appendDM, .removeImage], some (.removeErr e))
                | .ok _ =>
                  ([.loadImage, .unmountOEM, .runVeritysetup, .mountEFI, .getPartUUID,
                    .appendDM, .removeImage], none)

/-! ### Disk Budget Validator: `validateOEM` (finish_image_build.go:164-230) -/

/-- The fields of `config.Build` that `validateOEM` reads or writes.
`DiskSize` is a Go `int`; `OEMFSSize4K` a Go `uint64` (claims stay within
`Nat` range); `OEMSize` a Go string. -/
structure Build where
  SealOEM : Bool
  OEMSize : List Char
  OEMFSSize4K : Nat
  DiskSize : Int
deriving DecidableEq

/-- The distinct error returns of `validateOEM`. -/
inductive VErr
  | invalidOEMSize
  | needExtraSpaceSeal
  | insufficientDisk
deriving DecidableEq

/-- Go's `(uint64)(i)` conversion of an `int` (two's-complement wrap). -/
def uint64OfInt (i : Int) : Nat :=
  (i.emod (2 ^ 64)).toNat

/-- The tail of `validateOEM` shared by both branches that request an OEM
size (finish_image_build.go:212-229): round the byte count up to GB, check
`disk-size >= imgSize + oemSizeGB`, then shrink the effective OEM size to
`FormatUint((oemSizeBytes>>20)-1) + "M"` (the subtraction wraps in
`uint64`). -/
def validateOEMTail (b : Build) (oemSizeBytes : Nat) : Except VErr Build :=
  match convertSizeToGBRoundUp (natToDigits oemSizeBytes ++ [('B')]) with
  | none => .error .invalidOEMSize
  | some oemSizeGB =>
    if uint64OfInt b.DiskSize < 10 + oemSizeGB then .error .insufficientDisk
    else .ok { b with OEMSize := natToDigits ((oemSizeBytes >>> 20 + (u64 - 1)) % u64) ++ [('M')] }

/-- `validateOEM`, translated branch by branch. The base image size `imgSize`
is 10 GB. With sealing off and no OEM size: no-op. With sealing off and an
OEM size: parse it and go to the tail. With sealing on and no OEM size:
require `DiskSize >= 11`, set `OEMSize = "32M"`, `OEMFSSize4K = 4096`. With
sealing on and an OEM size: parse, set `OEMFSSize4K = oemSizeBytes >> 12`,
double `oemSizeBytes` (`uint64` wrap), and go to the tail. -/
def validateOEM (b : Build) : Except VErr Build :=
  if b.SealOEM = false then
    if b.OEMSize = [] then .ok b
    else
      match convertSizeToBytes b.OEMSize with
      | none => .error .invalidOEMSize
      | some oemSizeBytes => validateOEMTail b oemSizeBytes
  else
    if b.OEMSize = [] then
      if b.DiskSize < 11 then .error .needExtraSpaceSeal
      else .ok { b with OEMSize := ("32M").toList, OEMFSSize4K := 4096 }
    else
      match convertSizeToBytes b.OEMSize with
      | none => .error .invalidOEMSize
      | some oemSizeBytes =>
        validateOEMTail { b with OEMFSSize4K := oemSizeBytes >>> 12 }
          ((oemSizeBytes <<< 1) % u64)

deriving instance DecidableEq for Except

/-! ### Helper lemmas about the patcher loop -/

theorem patchLines_getElem :
    ∀ (entry : List Char) (ls out : List (List Char)), patchLines entry ls = some out →
      ∀ j : Nat, out[j]? = (ls[j]?).bind (patchLine entry) := by
  intro entry ls
  induction ls with
  | nil =>
    intro out h j
    simp only [patchLines, Option.some.injEq] at h
    subst h
    simp
  | cons l ls ih =>
    intro out h j
    simp only [patchLines] at h
    cases hl : patchLine entry l with
    | none => rw [hl] at h; exact absurd h (by simp)
    | some l' =>
      rw [hl] at h
      cases hls : patchLines entry ls with
      | none => rw [hls] at h; exact absurd h (by simp)
      | some ls' =>
        rw [hls] at h
        simp only [Option.some.injEq] at h
        subst h
        cases j with
        | zero => simp [hl]
        | succ j => simpa using ih ls' hls j

theorem patchLine_no_dm {entry line : List Char} (h : goContains line dmPat = false) :
    patchLine entry line = some line := by
  simp [patchLine, h]

/-! ### Shared concrete inputs for the Boot Config Patcher claims -/

/-- The table row built for deviceName `oemroot`, uuid `ABCD`, hash `h`,
salt `s`, 256 data blocks of 4K. -/
def oemEntryEx : List Char :=
  entryString (("oemroot").toList) (("ABCD").toList) (("h").toList) (("s").toList) 256

/-- A boot line whose existing `dm=` table has entry count 2. -/
def c1Line : List Char :=
  ("root=/dev/dm-0 dm=\"2 vroot none ro 1,0 100 verity arg\"").toList

/-- The boot line of the spec's Boot Config Patcher example. -/
def c5Line : List Char :=
  ("console=ttyS0 root=/dev/dm-0 dm=\"1 vroot none ro 1,0 100 verity payload=ROOT hashtree=HASH\"").toList

/-- A grub.cfg with one non-`dm=` line and the example boot line. -/
def c5Content : List Char := ("set default=0\n").toList ++ c5Line

/-- The appended row the spec's example expects. -/
def c5Row : List Char :=
  ("oemroot none ro 1, 0 2048 verity payload=PARTUUID=ABCD hashtree=PARTUUID=ABCD hashstart=2048 alg=sha256 root_hexdigest=h salt=s\"").toList

/-- The patched example line: count overwritten to 2, final quote dropped,
new row appended after a comma. -/
def c5Patched : List Char :=
  ("console=ttyS0 root=/dev/dm-0 dm=\"2 vroot none ro 1,0 100 verity payload=ROOT hashtree=HASH,").toList
    ++ c5Row

/-! ### C1 -/

/-- C1 counterexample: the claim says the patcher increments the existing
count, so a prior count of 2 must become 3; on a line whose `dm=` table has
count 2 the patched line's count (the token after `dm="`, located
structurally) is still `2`, because the code overwrites the character at the
fixed offset `startPos+4` with the literal `'2'` instead of incrementing. -/
theorem grubCount_not_incremented_cex :
    dmEntryCount c1Line = some [('2')]
    ∧ (patchLine oemEntryEx c1Line).bind dmEntryCount = some [('2')]
    ∧ ¬ (patchLine oemEntryEx c1Line).bind dmEntryCount = some [('3')] := by
  decide

/-- C1 (amended): for every line containing `dm=` (first occurrence at `i`,
line long enough for the write to be in bounds), `appendDMEntryToGRUB`
rewrites the line to: the line minus its final character, with the character
at the fixed offset `i+4` overwritten by the literal `'2'`, followed by a
comma and the new table row. The count therefore becomes `n+1` only when the
prior count was the single digit 1. -/
theorem grubPatch_fixed_offset_write (entry line : List Char) (i : Nat)
    (hidx : goIndex dmPat line = some i) (hlen : i + 4 < line.length - 1) :
    patchLine entry line = some ((line.dropLast.set (i + 4) ('2')) ++ (',') :: entry) := by
  have hc : goContains line dmPat = true := goIndex_isSome_of_eq hidx
  simp only [patchLine, hc, if_true, hidx]
  rw [if_pos (by simpa [List.length_dropLast] using hlen)]
  rw [intercalate_splitOn_append]

/-- C1 witness: the amended theorem at the concrete line `dm="1 x"`. -/
theorem grubPatch_fixed_offset_write_witness :
    patchLine oemEntryEx (("dm=\"1 x\"").toList) =
      some ((((("dm=\"1 x\"").toList).dropLast.set 4 ('2'))) ++ (',') :: oemEntryEx) :=
  grubPatch_fixed_offset_write oemEntryEx (("dm=\"1 x\"").toList) 0 (by decide) (by decide)

/-! ### C5 -/

/-- C5: on the spec's example line (existing count 1, deviceName `oemroot`,
dataBlocks4K = 256, uuid `ABCD`, hash `h`, salt `s`), the patched line has
entry count 2 and ends with the expected appended row, with
2048 = 256 × 8 sectors; the non-`dm=` line of the file is unchanged. -/
theorem grub_example_line_thm :
    appendDMEntryToGRUB (("oemroot").toList) (("ABCD").toList) (("h").toList) (("s").toList) 256
        c5Content = some ((("set default=0\n").toList) ++ c5Patched)
    ∧ dmEntryCount c5Patched = some [('2')]
    ∧ c5Row.isSuffixOf c5Patched = true
    ∧ 2048 = 256 * 8 := by
  decide

/-! ### C8 -/

/-- C8: whenever `appendDMEntryToGRUB` succeeds, every input line that does
not contain `dm=` appears byte-identical at the same index in the rewritten
line list, which is what gets joined with newlines and written back as the
whole output file. -/
theorem grub_non_dm_lines_unchanged (name partUUID hash salt : List Char) (k4 : Nat)
    (content : List Char) (out : List (List Char))
    (h : patchLines (entryString name partUUID hash salt k4) (content.splitOn '\n') = some out)
    (j : Nat) (line : List Char) (hj : (content.splitOn '\n')[j]? = some line)
    (hno : goContains line dmPat = false) :
    out[j]? = some line
    ∧ appendDMEntryToGRUB name partUUID hash salt k4 content =
        some (List.intercalate [('\n')] out) := by
  constructor
  · rw [patchLines_getElem (entryString name partUUID hash salt k4) (content.splitOn '\n') out h j,
      hj]
    simp [patchLine_no_dm hno]
  · simp [appendDMEntryToGRUB, h]

/-- C8 witness: the theorem at the concrete two-line example file; line 0
(`set default=0`) has no `dm=` and is unchanged. -/
theorem grub_non_dm_lines_unchanged_witness :
    ((c5Content.splitOn '\n').map (patchLine oemEntryEx) = [some (("set default=0").toList),
        some c5Patched]) ∧
    ([(("set default=0").toList), c5Patched] : List (List Char))[0]? =
        some (("set default=0").toList) :=
  ⟨by decide,
    (grub_non_dm_lines_unchanged (("oemroot").toList) (("ABCD").toList) (("h").toList)
      (("s").toList) 256 c5Content [(("set default=0").toList), c5Patched] (by decide) 0
      (("set default=0").toList) (by decide) (by decide)).1⟩

/-! ### C10 -/

/-- C10: the patcher truncates each `dm=` line's final character and writes
at index `startPos+4` unconditionally; the write is in bounds (no panic,
modelled by `isSome`) precisely under the precondition that at least five
characters lie between the `dm=` occurrence and the truncated end, and on a
shorter line containing `dm=` — here the five-character line `dm="1` — the
write is out of range and the function panics (`none`). -/
theorem grubPatch_bounds :
    (∀ (entry line : List Char) (i : Nat), goIndex dmPat line = some i →
      i + 4 < line.length - 1 → (patchLine entry line).isSome = true)
    ∧ patchLine [] (("dm=\"1").toList) = none := by
  constructor
  · intro entry line i hidx hlen
    have hc : goContains line dmPat = true := goIndex_isSome_of_eq hidx
    simp only [patchLine, hc, if_true, hidx]
    rw [if_pos (by simpa [List.length_dropLast] using hlen)]
    simp
  · decide

/-- C10 witness: the in-bounds half at a concrete line that satisfies the
precondition. -/
theorem grubPatch_bounds_witness :
    (patchLine [] (("dm=\"12345").toList)).isSome = true :=
  grubPatch_bounds.1 [] (("dm=\"12345").toList) 0 (by decide) (by decide)

/-! ### C4 and C3: ordering and error propagation of `SealOEMPartition` -/

/-- The order in which the source performs the seven external steps. -/
def sealStepOrder : List SealStep :=
  [.loadImage, .unmountOEM, .runVeritysetup, .mountEFI, .getPartUUID, .appendDM, .removeImage]

/-- A veritysetup report that parses (hash `h`, salt `s`). -/
def verityOutOk : String :=
  "VERITY header information for /dev/sda8\nSalt: s\nRoot hash: h"

/-- An environment where every external step succeeds. -/
def sealEnvOk : SealEnv :=
  ⟨.ok "img", .ok (), .ok verityOutOk, .ok "/tmp/d/efi/boot", .ok "ABCD", .ok (), .ok ()⟩

/-- An environment where everything succeeds except the final docker-image
removal (the cleanup step). -/
def sealEnvRemoveFail : SealEnv :=
  ⟨.ok "img", .ok (), .ok verityOutOk, .ok "/tmp/d/efi/boot", .ok "ABCD", .ok (),
    .error "rmi failed"⟩

/-- C4 counterexample: with every step succeeding, the executed trace loads
the veritysetup image first and unmounts the OEM partition second, so the
claimed order (unmount strictly before load) does not hold. -/
theorem seal_order_load_before_unmount_cex :
    (sealOEMPartition sealEnvOk).1 = sealStepOrder
    ∧ ¬ ((sealOEMPartition sealEnvOk).1.indexOf SealStep.unmountOEM
        < (sealOEMPartition sealEnvOk).1.indexOf SealStep.loadImage) := by
  decide

/-- C4 (amended): `SealOEMPartition` performs its side effects in the source
order load image → unmount OEM → run veritysetup → mount EFI → read UUID →
patch grub → remove image: for every outcome environment the executed trace
is a prefix of that order, so no later step ever happens before an earlier
one — but the image is loaded before the OEM partition is unmounted, not
after as the claim states. -/
theorem seal_steps_follow_source_order (env : SealEnv) :
    List.IsPrefix (sealOEMPartition env).1 sealStepOrder := by
  obtain ⟨l, u, v, m, p, a, r⟩ := env
  cases l with
  | error e => exact ⟨_, rfl⟩
  | ok lv =>
    cases u with
    | error e => exact ⟨_, rfl⟩
    | ok uv =>
      cases v with
      | error e => exact ⟨_, rfl⟩
      | ok out =>
        cases hp : parseVerityOutput out.toList with
        | none =>
          simp only [sealOEMPartition, hp]
          exact ⟨_, rfl⟩
        | some hs =>
          simp only [sealOEMPartition, hp]
          cases m with
          | error e => exact ⟨_, rfl⟩
          | ok mv =>
            cases p with
            | error e => exact ⟨_, rfl⟩
            | ok pv =>
              cases a with
              | error e => exact ⟨_, rfl⟩
              | ok av =>
                cases r with
                | error e => exact ⟨_, rfl⟩
                | ok rv => exact ⟨_, rfl⟩

/-- C3 counterexample: with the hash computation (and every other step)
successful but the cleanup step failing, `SealOEMPartition` returns the
cleanup error — the operation's result for the caller is failure, not
success as the claim states. -/
theorem seal_cleanup_failure_fails_cex :
    (sealOEMPartition sealEnvRemoveFail).2 = some (SealErr.removeErr "rmi failed")
    ∧ (sealOEMPartition sealEnvRemoveFail).2 ≠ none := by
  decide

/-- C3 (amended): when every step up to and including the grub patch
succeeds (in particular the hash computation has succeeded) and removing the
veritysetup image fails, `SealOEMPartition` returns an error wrapping the
cleanup failure: the cleanup failure is reported by failing the whole
operation, not swallowed. -/
theorem seal_cleanup_failure_propagates (env : SealEnv) (e : String)
    (h1 : ∃ s, env.loadImageResult = .ok s)
    (h2 : env.unmountResult = .ok ())
    (h3 : ∃ out hs, env.veritysetupRun = .ok out ∧ parseVerityOutput out.toList = some hs)
    (h4 : ∃ s, env.mountEFIResult = .ok s)
    (h5 : ∃ s, env.partUUIDResult = .ok s)
    (h6 : env.appendResult = .ok ())
    (h7 : env.removeResult = .error e) :
    (sealOEMPartition env).2 = some (.removeErr e) := by
  obtain ⟨l, u, v, m, p, a, r⟩ := env
  obtain ⟨s1, hs1⟩ := h1
  obtain ⟨out, hs, hout, hparse⟩ := h3
  obtain ⟨s4, hs4⟩ := h4
  obtain ⟨s5, hs5⟩ := h5
  simp only at hs1 h2 hout hparse hs4 hs5 h6 h7
  subst hs1 h2 hout hs4 hs5 h6 h7
  simp only [String.toList] at hparse
  simp [sealOEMPartition, hparse]

/-- C3 witness: the amended theorem at the concrete environment where only
cleanup fails. -/
theorem seal_cleanup_failure_propagates_witness :
    (sealOEMPartition sealEnvRemoveFail).2 = some (.removeErr "rmi failed") :=
  seal_cleanup_failure_propagates sealEnvRemoveFail "rmi failed" ⟨"img", rfl⟩ rfl
    ⟨verityOutOk, ((("h").toList), (("s").toList)), rfl, by decide⟩
    ⟨"/tmp/d/efi/boot", rfl⟩ ⟨"ABCD", rfl⟩ rfl rfl

/-! ### C6: the parser fails unless both fields are present and nonempty -/

theorem verityFold_fst_empty :
    ∀ (lines : List (List Char)) (acc : List Char × List Char),
      (∀ line ∈ lines, (("Root hash:").toList).isPrefixOf line = true →
        trimSpace ((line.splitOn ':').getD 1 []) = []) →
      acc.1 = [] → (lines.foldl verityStep acc).1 = [] := by
  intro lines
  induction lines with
  | nil => intro acc _ h0; simpa using h0
  | cons line lines ih =>
    intro acc hall h0
    simp only [List.foldl_cons]
    refine ih (verityStep acc line) (fun l hl => hall l (List.mem_cons_of_mem line hl)) ?_
    simp only [verityStep]
    cases hr : (("Root hash:").toList).isPrefixOf line with
    | true =>
      simp only [if_pos rfl]
      exact hall line (List.mem_cons_self line lines) hr
    | false =>
      rw [if_neg (by simp)]
      cases hsalt : (("Salt:").toList).isPrefixOf line with
      | true => rw [if_pos rfl]; simpa using h0
      | false => rw [if_neg (by simp)]; exact h0

theorem verityFold_snd_empty :
    ∀ (lines : List (List Char)) (acc : List Char × List Char),
      (∀ line ∈ lines, (("Salt:").toList).isPrefixOf line = true →
        trimSpace ((line.splitOn ':').getD 1 []) = []) →
      acc.2 = [] → (lines.foldl verityStep acc).2 = [] := by
  intro lines
  induction lines with
  | nil => intro acc _ h0; simpa using h0
  | cons line lines ih =>
    intro acc hall h0
    simp only [List.foldl_cons]
    refine ih (verityStep acc line) (fun l hl => hall l (List.mem_cons_of_mem line hl)) ?_
    simp only [verityStep]
    cases hr : (("Root hash:").toList).isPrefixOf line with
    | true =>
      simp only [if_pos rfl]
      exact h0
    | false =>
      rw [if_neg (by simp)]
      cases hsalt : (("Salt:").toList).isPrefixOf line with
      | true =>
        rw [if_pos rfl]
        exact hall line (List.mem_cons_self line lines) hsalt
      | false => rw [if_neg (by simp)]; exact h0

/-- C6: for every tool output in which every `Root hash:`-prefixed line (in
particular when there is none) carries an empty value after the colon, or
likewise for `Salt:`, the parsing stage of `veritysetup` fails; and whenever
it succeeds, both the hash and the salt are nonempty — it never returns a
hash-only or salt-only result. -/
theorem veritysetup_parse_requires_both_fields (out : List Char) :
    (((∀ line ∈ out.splitOn '\n', (("Root hash:").toList).isPrefixOf line = true →
        trimSpace ((line.splitOn ':').getD 1 []) = [])
      ∨ (∀ line ∈ out.splitOn '\n', (("Salt:").toList).isPrefixOf line = true →
        trimSpace ((line.splitOn ':').getD 1 []) = [])) →
      parseVerityOutput out = none)
    ∧ (∀ h s, parseVerityOutput out = some (h, s) → h ≠ [] ∧ s ≠ []) := by
  constructor
  · intro hcase
    simp only [parseVerityOutput]
    rcases hcase with hc | hc
    · rw [if_pos (Or.inl (verityFold_fst_empty (out.splitOn '\n') ([], []) hc rfl))]
    · rw [if_pos (Or.inr (verityFold_snd_empty (out.splitOn '\n') ([], []) hc rfl))]
  · intro h s hsome
    simp only [parseVerityOutput] at hsome
    split at hsome
    · exact absurd hsome (by simp)
    · next hne =>
      push_neg at hne
      rw [Option.some.injEq] at hsome
      constructor
      · intro hcon
        exact hne.1 (by rw [hsome]; exact hcon)
      · intro hcon
        exact hne.2 (by rw [hsome]; exact hcon)

/-- C6 witness: a report with a `Root hash:` line but no `Salt:` line fails
to parse (right disjunct), via the theorem. -/
theorem veritysetup_parse_requires_both_fields_witness :
    parseVerityOutput (("Root hash: abc\nData blocks: 2048").toList) = none :=
  (veritysetup_parse_requires_both_fields (("Root hash: abc\nData blocks: 2048").toList)).1
    (Or.inr (by decide))

/-! ### C2, C7, C9: the Disk Budget Validator -/

theorem uint64OfInt_eq_toNat {i : Int} (h0 : 0 ≤ i) (h1 : i < 2 ^ 64) :
    uint64OfInt i = i.toNat := by
  unfold uint64OfInt
  rw [show i.emod (2 ^ 64) = i % (2 ^ 64) from rfl, Int.emod_eq_of_lt h0 (by exact_mod_cast h1)]

theorem two_pow_64_lt_ten_pow_64 : (2 : Nat) ^ 64 < 10 ^ 64 := by
  norm_num

theorem validateOEMTail_fields (b : Build) (x : Nat) (r : Build)
    (h : validateOEMTail b x = .ok r) :
    r.OEMFSSize4K = b.OEMFSSize4K ∧ r.SealOEM = b.SealOEM ∧ r.DiskSize = b.DiskSize := by
  unfold validateOEMTail at h
  split at h
  · exact absurd h (by simp)
  · split at h
    · exact absurd h (by simp)
    · rw [Except.ok.injEq] at h
      subst h
      exact ⟨rfl, rfl, rfl⟩

/-- C2 counterexample: with sealing enabled and requested OEM size `1G`, on
the smallest accepted disk (12 GB) `validateOEM` sets the effective OEM size
the planner applies to `2047M` — the doubled partition (2048 MiB) minus
1 MiB — not `1023M` as the claim states. -/
theorem validateOEM_seal_1G_effective_size_cex :
    validateOEM ⟨true, ("1G").toList, 0, 12⟩ = .ok ⟨true, ("2047M").toList, 262144, 12⟩
    ∧ (("2047M").toList) ≠ (("1023M").toList) := by
  decide

/-- C2 (amended): with sealing enabled and requested OEM size `1G`,
`validateOEM` requires disk size ≥ 12 GB (base 10 GB + round-up of the
doubled 2 GiB), failing with the insufficient-disk-size error below that,
and on success sets the effective OEM size to `2047M` (the 1 MiB shrink
taken from the hash-tree half: the data half keeps its full 1 GiB, since
`OEMFSSize4K` stays 262144 4K-blocks = 1 GiB). -/
theorem validateOEM_seal_1G_budget (ds : Int) (h0 : 0 ≤ ds) (h1 : ds < 2 ^ 63) :
    (ds < 12 → validateOEM ⟨true, ("1G").toList, 0, ds⟩ = .error .insufficientDisk)
    ∧ (12 ≤ ds → validateOEM ⟨true, ("1G").toList, 0, ds⟩ =
        .ok ⟨true, ("2047M").toList, 262144, ds⟩) := by
  have hu : uint64OfInt ds = ds.toNat :=
    uint64OfInt_eq_toNat h0 (lt_trans h1 (by norm_num))
  have hv : validateOEM ⟨true, ("1G").toList, 0, ds⟩ =
      validateOEMTail ⟨true, ("1G").toList, 262144, ds⟩ 2147483648 := by
    simp only [validateOEM]
    norm_num
    rw [show convertSizeToBytes [('1'), ('G')] = some 1073741824 from rfl]
    rw [if_neg (by decide)]
    rfl
  have ht : validateOEMTail ⟨true, ("1G").toList, 262144, ds⟩ 2147483648 =
      if uint64OfInt ds < 12 then .error .insufficientDisk
      else .ok ⟨true, ("2047M").toList, 262144, ds⟩ := by
    simp only [validateOEMTail]
    rw [show convertSizeToGBRoundUp (natToDigits 2147483648 ++ [('B')]) = some 2 from rfl]
    rfl
  constructor
  · intro hds
    rw [hv, ht, hu, if_pos (by omega)]
  · intro hds
    rw [hv, ht, hu, if_neg (by omega)]

/-- C2 witness: the amended theorem at disk size 13. -/
theorem validateOEM_seal_1G_budget_witness :
    validateOEM ⟨true, ("1G").toList, 0, 13⟩ = .ok ⟨true, ("2047M").toList, 262144, 13⟩ :=
  (validateOEM_seal_1G_budget 13 (by norm_num) (by norm_num)).2 (by norm_num)

/-- C7: with sealing disabled and an OEM size requested, `validateOEM`
accepts iff the disk size is at least the base image size (10 GB) plus the
requested OEM size rounded up to whole GB, and fails with the
insufficient-disk-size error otherwise; for the `1G` request the minimum is
11 GB and the effective OEM size becomes `1023M` (1 GiB − 1 MiB). -/
theorem validateOEM_noseal_budget :
    (∀ (b : Build) (bytes : Nat), b.SealOEM = false → b.OEMSize ≠ [] →
      convertSizeToBytes b.OEMSize = some bytes → bytes < 2 ^ 64 →
      0 ≤ b.DiskSize → b.DiskSize < 2 ^ 63 →
      ((∃ b', validateOEM b = .ok b') ↔
        ((10 : Int) + ((bytes + (1073741824 - 1)) / 1073741824 : Nat)) ≤ b.DiskSize)
      ∧ (b.DiskSize < ((10 : Int) + ((bytes + (1073741824 - 1)) / 1073741824 : Nat)) →
          validateOEM b = .error .insufficientDisk))
    ∧ validateOEM ⟨false, ("1G").toList, 0, 11⟩ = .ok ⟨false, ("1023M").toList, 0, 11⟩
    ∧ validateOEM ⟨false, ("1G").toList, 0, 10⟩ = .error .insufficientDisk := by
  refine ⟨?_, by decide, by decide⟩
  intro b bytes hseal hsz hparse hbytes hds0 hds1
  have hb64 : bytes < 10 ^ 64 := lt_trans hbytes two_pow_64_lt_ten_pow_64
  have hu : uint64OfInt b.DiskSize = b.DiskSize.toNat :=
    uint64OfInt_eq_toNat hds0 (lt_trans hds1 (by norm_num))
  have hv : validateOEM b = validateOEMTail b bytes := by
    simp only [validateOEM, hseal]
    rw [if_pos trivial, if_neg hsz, hparse]
  have ht : validateOEMTail b bytes =
      if uint64OfInt b.DiskSize < 10 + (bytes + (1073741824 - 1)) / 1073741824 then
        Except.error .insufficientDisk
      else .ok { b with OEMSize := natToDigits ((bytes >>> 20 + (u64 - 1)) % u64) ++ [('M')] } := by
    simp only [validateOEMTail]
    rw [convertSizeToGBRoundUp_format hb64]
  constructor
  · constructor
    · rintro ⟨b', hb'⟩
      rw [hv, ht] at hb'
      by_cases hlt : uint64OfInt b.DiskSize < 10 + (bytes + (1073741824 - 1)) / 1073741824
      · rw [if_pos hlt] at hb'
        cases hb'
      · rw [hu] at hlt
        push_neg at hlt
        omega
    · intro hle
      refine ⟨{ b with OEMSize := natToDigits ((bytes >>> 20 + (u64 - 1)) % u64) ++ [('M')] }, ?_⟩
      rw [hv, ht, if_neg ?_]
      rw [hu]
      omega
  · intro hlt
    rw [hv, ht, if_pos ?_]
    rw [hu]
    omega

/-- C7 witness: the general part at the `1G` request on an 11 GB disk. -/
theorem validateOEM_noseal_budget_witness :
    ∃ b', validateOEM ⟨false, ("1G").toList, 0, 11⟩ = .ok b' :=
  (validateOEM_noseal_budget.1 ⟨false, ("1G").toList, 0, 11⟩ 1073741824 rfl (by decide)
    (by decide) (by norm_num) (by norm_num) (by norm_num)).1.mpr (by norm_num)

/-- C9: with sealing enabled and an OEM size requested, the 4K data-block
count handed to the sealer is `floor(requestedBytes / 4096)` computed from
the originally requested size — the later doubling of the partition and the
1 MiB rounding shrink never change it. -/
theorem validateOEM_OEMFSSize4K_from_requested (b : Build) (bytes : Nat) (b' : Build)
    (hseal : b.SealOEM = true) (hsz : b.OEMSize ≠ [])
    (hparse : convertSizeToBytes b.OEMSize = some bytes)
    (hok : validateOEM b = .ok b') :
    b'.OEMFSSize4K = bytes / 4096 := by
  have hv : validateOEM b =
      validateOEMTail { b with OEMFSSize4K := bytes >>> 12 } ((bytes <<< 1) % u64) := by
    simp only [validateOEM, hseal]
    rw [if_neg (by simp), if_neg hsz, hparse]
  rw [hv] at hok
  rw [(validateOEMTail_fields _ _ _ hok).1]
  show bytes >>> 12 = bytes / 4096
  rw [Nat.shiftRight_eq_div_pow]

/-- C9 witness: the theorem at the `1G` request on a 12 GB disk, where the
resulting data-block count is 262144 = 2^30 / 4096. -/
theorem validateOEM_OEMFSSize4K_from_requested_witness :
    (⟨true, ("2047M").toList, 262144, 12⟩ : Build).OEMFSSize4K = 1073741824 / 4096 :=
  validateOEM_OEMFSSize4K_from_requested ⟨true, ("1G").toList, 0, 12⟩ 1073741824
    ⟨true, ("2047M").toList, 262144, 12⟩ rfl (by decide) (by decide) (by decide)
